import Mathlib

/-!
Shallow embedding of the Mekano core (mekano/AtomFactory.py and mekano/IO.py):
the atom-factory bimap, the generic line-oriented state-machine parsing engine,
and its two instantiations (TrecParser, SMARTParser), together with theorems
checking the specification's claims about them.

Conventions of the embedding:
* Python exceptions are modelled with `Except` (`PyErr` distinguishes the
  exception classes the claims talk about).
* Methods that mutate `self` return the updated state explicitly.
* The record callbacks are modelled as pure functions; the arguments of each
  callback invocation are recorded in a `trace` field of the parser state so
  that "the callback was invoked with ..." is observable.
-/

namespace Mekano

/-- Python exception kinds raised by the embedded code: `keyError` models
`KeyError` (a subclass of `LookupError`), `indexError` models `IndexError`,
`illegalOperation` models the project's `IllegalOperation` exception. -/
inductive PyErr where
  | keyError
  | indexError
  | illegalOperation
deriving DecidableEq

/-- `AtomFactory.__init__` state: `obj_to_atom` is the Python dict modelled as
an association list in insertion order, `atom_to_obj` the Python list, `locked`
the lock flag; the diagnostic `name` is kept for faithfulness. -/
structure AtomFactory (α : Type) where
  name : String
  obj_to_atom : List (α × Nat)
  atom_to_obj : List α
  locked : Bool
deriving DecidableEq

variable {α : Type} [DecidableEq α]

/-- Python dict lookup `d[obj]` on the `obj_to_atom` association list. -/
def dictGet (d : List (α × Nat)) (o : α) : Option Nat :=
  (d.find? (fun p => decide (p.1 = o))).map Prod.snd

/-- `AtomFactory(name)`: a fresh empty, unlocked factory. -/
def mkAtomFactory (n : String) : AtomFactory α :=
  { name := n, obj_to_atom := [], atom_to_obj := [], locked := false }

/-- `AtomFactory.__getitem__` (lookup-or-insert): try the dict; on `KeyError`,
re-raise if locked, else assign atom `len(atom_to_obj) + 1` and record both
directions.  Returns the Python result together with the updated factory. -/
def getitem (af : AtomFactory α) (obj : α) : Except PyErr Nat × AtomFactory α :=
  match dictGet af.obj_to_atom obj with
  | some a => (Except.ok a, af)
  | none =>
      if af.locked then
        (Except.error PyErr.keyError, af)
      else
        let a := af.atom_to_obj.length + 1
        (Except.ok a,
          { af with obj_to_atom := af.obj_to_atom ++ [(obj, a)],
                    atom_to_obj := af.atom_to_obj ++ [obj] })

/-- Python list indexing `l[i]`, including negative-index wrap-around; `none`
models an `IndexError`. -/
def pyIndex (l : List α) (i : Int) : Option α :=
  if 0 ≤ i then l[i.toNat]?
  else if 0 ≤ i + l.length then l[(i + l.length).toNat]?
  else none

/-- `AtomFactory.get_object` (and `__call__`): `self.atom_to_obj[a-1]`. -/
def get_object (af : AtomFactory α) (a : Int) : Except PyErr α :=
  match pyIndex af.atom_to_obj (a - 1) with
  | some o => Except.ok o
  | none => Except.error PyErr.indexError

/-- `AtomFactory.__len__`. -/
def size (af : AtomFactory α) : Nat :=
  af.atom_to_obj.length

/-- `AtomFactory.__contains__`: membership in the `obj_to_atom` dict. -/
def contains (af : AtomFactory α) (o : α) : Bool :=
  (dictGet af.obj_to_atom o).isSome

/-- `AtomFactory.lock`. -/
def lock (af : AtomFactory α) : AtomFactory α :=
  { af with locked := true }

/-- `AtomFactory.remove(objects)`: build a new factory by looking-up-or-
inserting, in order, every object of `atom_to_obj` not in `objects`.  The
method only reads `self`, so the receiver state is returned unchanged in the
second component. -/
def remove (af : AtomFactory α) (objects : List α) : AtomFactory α × AtomFactory α :=
  (af.atom_to_obj.foldl
      (fun g obj => if obj ∈ objects then g else (getitem g obj).2)
      (mkAtomFactory af.name),
    af)

/-- Inserting a list of objects, in order, into a fresh empty factory. -/
def insertAll (n : String) (l : List α) : AtomFactory α :=
  l.foldl (fun g obj => (getitem g obj).2) (mkAtomFactory n)

/-- `convertAtom(oldAF, newAF, atom)`: resolve the atom in `oldAF`, raise
`IllegalOperation` when the object is not in `newAF`, else return `newAF[o]`.
The second component is the (possibly updated) state of `newAF`. -/
def convertAtom (oldAF newAF : AtomFactory α) (atom : Int) :
    Except PyErr Nat × AtomFactory α :=
  match get_object oldAF atom with
  | Except.error e => (Except.error e, newAF)
  | Except.ok o =>
      if contains newAF o then getitem newAF o
      else (Except.error PyErr.illegalOperation, newAF)

/-- The association list pairing each object of `l` with its position counted
from `k`. -/
def enumAtoms : List α → Nat → List (α × Nat)
  | [], _ => []
  | o :: l, k => (o, k) :: enumAtoms l (k + 1)

/-- The bimap invariant of an `AtomFactory`: the dict is exactly the object
list enumerated from atom 1, and the object list has no duplicates. -/
def Invariant (af : AtomFactory α) : Prop :=
  af.obj_to_atom = enumAtoms af.atom_to_obj 1 ∧ af.atom_to_obj.Nodup

/-! ### The state-machine engine (`StateMachineFileParser`) -/

/-- Handler return value in `StateMachineFileParser.parse`: a new state name,
`None` (stay in the same state), or `False` (terminate parsing). -/
inductive Trans (ν : Type) where
  | next (s : ν)
  | stay
  | stop
deriving DecidableEq

/-- Outcome of the `for line in fin` loop inside `parse`: the final `state`
variable, the parser data, whether the loop ended via `break`, and the last
value bound to `line` (`none` iff no line was ever read). -/
structure RunOut (ν σ : Type) where
  state : ν
  data : σ
  stopped : Bool
  lastLine : Option String
deriving DecidableEq

/-- The `for line in fin` loop of `StateMachineFileParser.parse`.  The
state-function table built by `__introspect` is the `dispatch` argument, a
fixed function of the subclass. -/
def smLoop (dispatch : ν → String → σ → Trans ν × σ) :
    ν → σ → List String → RunOut ν σ
  | st, d, [] => ⟨st, d, false, none⟩
  | st, d, l :: ls =>
      match dispatch st l d with
      | (Trans.stop, d1) => ⟨st, d1, true, some l⟩
      | (Trans.stay, d1) =>
          let r := smLoop dispatch st d1 ls
          ⟨r.state, r.data, r.stopped, some (r.lastLine.getD l)⟩
      | (Trans.next st1, d1) =>
          let r := smLoop dispatch st1 d1 ls
          ⟨r.state, r.data, r.stopped, some (r.lastLine.getD l)⟩

/-- `StateMachineFileParser.parse`: run the loop over all lines, then call
`self.onFinish(line)` — also after a `break`.  When the source was empty the
variable `line` was never bound, and Python raises `UnboundLocalError`,
modelled by `Except.error ()`. -/
def smParse (dispatch : ν → String → σ → Trans ν × σ) (onFinish : String → σ → σ)
    (lines : List String) (start : ν) (d0 : σ) : Except Unit (RunOut ν σ) :=
  let r := smLoop dispatch start d0 lines
  match r.lastLine with
  | none => Except.error ()
  | some l => Except.ok { r with data := onFinish l r.data }

/-! ### Python string helpers used by the parsers -/

/-- Character-list core of Python `str.startswith`. -/
def isPrefixChars : List Char → List Char → Bool
  | [], _ => true
  | _ :: _, [] => false
  | c :: cs, d :: ds => if c = d then isPrefixChars cs ds else false

/-- Python `line.startswith(pre)` (by code points, as Python slices are). -/
def pyStartswith (line pre : String) : Bool :=
  isPrefixChars pre.data line.data

/-- The whitespace characters removed by Python `str.strip()`. -/
def pyIsSpace (c : Char) : Bool :=
  c = ' ' || c = '\t' || c = '\n' || c = '\r' || c = '\x0b' || c = '\x0c'

/-- Python `str.strip()`. -/
def pyStrip (s : String) : String :=
  ⟨((s.data.dropWhile pyIsSpace).reverse.dropWhile pyIsSpace).reverse⟩

/-- Python `str.find(sub, start)` for a one-character `sub`: the smallest
index `≥ start` where it occurs, else `-1`. -/
def pyFindChar (s : String) (c : Char) (start : Nat) : Int :=
  match (s.data.drop start).findIdx? (fun x => decide (x = c)) with
  | some j => ((start + j : Nat) : Int)
  | none => -1

/-- Python string slice `s[a:b]` where the stop index `b` may be negative (as
returned by `find`). -/
def pySlice (s : String) (a : Nat) (b : Int) : String :=
  let n := s.data.length
  let stop : Int := if b < 0 then b + n else b
  ⟨(s.data.take (min stop.toNat n)).drop a⟩

/-! ### TrecParser -/

/-- The states of `TrecParser` (`__introspect` finds `onMisc`, `onGotDocId`,
`onText`, `onFinish`; `Finish` is only entered through the terminal hook). -/
inductive TrecSt where
  | Misc
  | GotDocId
  | Text
deriving DecidableEq

/-- The record state of `TrecParser` (`docid`, `textlines`), plus the trace of
arguments passed to `self.callback`. -/
structure TrecData where
  docid : Option String
  textlines : List String
  trace : List (Option String × String)
deriving DecidableEq

/-- `TrecParser.onMisc`: on a `<DOCNO>` line extract the docid up to the next
`<` and reset the text buffer; otherwise stay (`return None`). -/
def trecOnMisc (line : String) (d : TrecData) : Trans TrecSt × TrecData :=
  if pyStartswith line "<DOCNO>" then
    let p := pyFindChar line '<' 7
    (Trans.next TrecSt.GotDocId,
      { d with docid := some (pyStrip (pySlice line 7 p)), textlines := [] })
  else (Trans.stay, d)

/-- `TrecParser.onGotDocId`. -/
def trecOnGotDocId (line : String) (d : TrecData) : Trans TrecSt × TrecData :=
  if pyStartswith line "<TEXT>" then (Trans.next TrecSt.Text, d)
  else (Trans.stay, d)

/-- `TrecParser.onText`: on `</TEXT>` invoke the callback (recorded in the
trace) and `return False` exactly when the callback returned `False`; other
lines are appended to `textlines`. -/
def trecOnText (cb : Option String → String → Bool) (line : String) (d : TrecData) :
    Trans TrecSt × TrecData :=
  if pyStartswith line "</TEXT>" then
    let text := String.join d.textlines
    let r := cb d.docid text
    let d1 := { d with trace := d.trace ++ [(d.docid, text)] }
    if r = false then (Trans.stop, d1) else (Trans.next TrecSt.Misc, d1)
  else (Trans.stay, { d with textlines := d.textlines ++ [line] })

/-- The state-function table `__introspect` builds for `TrecParser`. -/
def trecDispatch (cb : Option String → String → Bool) :
    TrecSt → String → TrecData → Trans TrecSt × TrecData
  | TrecSt.Misc => trecOnMisc
  | TrecSt.GotDocId => trecOnGotDocId
  | TrecSt.Text => trecOnText cb

/-- The initial record state of a `TrecParser`. -/
def trecInit : TrecData :=
  { docid := none, textlines := [], trace := [] }

/-- `TrecParser(fin, callback).parse()`: start state Misc; `onFinish` is the
no-op inherited from `StateMachineFileParser`. -/
def trecParse (cb : Option String → String → Bool) (lines : List String) :
    Except Unit (RunOut TrecSt TrecData) :=
  smParse (trecDispatch cb) (fun _ d => d) lines TrecSt.Misc trecInit

/-! ### SMARTParser -/

/-- The states of `SMARTParser`. -/
inductive SmartSt where
  | Misc
  | GotDocId
  | SawDotC
  | SectionHeader
  | SectionText
deriving DecidableEq

/-- The record state of `SMARTParser`, plus the trace of arguments passed to
`self.callback`. -/
structure SmartData where
  docid : Option String
  cats : Option (List String)
  textlines : List String
  sectionheader : Option String
  trace : List (Option String × Option (List String) × String)
deriving DecidableEq

/-- `finditer` of the compiled pattern `([^ ]+) 1`, scanning left to right:
`run` holds, reversed, the maximal run of non-space characters ending at the
scan position.  A non-empty run whose next two characters are space, `1` is a
match — `[^ ]+` is greedy and cannot end before the space, and no shorter
backtrack can succeed since every run character is non-space — and scanning
resumes after the consumed `1`.  A space with no `1` after it ends the run
without a match, and at a space with an empty run the following `1` starts a
new run, exactly as the scanner, stepping one position at a time, sees it. -/
def smartCatsAux : List Char → List Char → List String
  | _, [] => []
  | run, ' ' :: '1' :: rest =>
      if run.isEmpty then smartCatsAux ['1'] rest
      else (⟨run.reverse⟩ : String) :: smartCatsAux [] rest
  | _, ' ' :: rest => smartCatsAux [] rest
  | run, c :: rest => smartCatsAux (c :: run) rest

/-- The category-line matches of the pattern `([^ ]+) 1`. -/
def smartCats (l : List Char) : List String :=
  smartCatsAux [] l

/-- `SMARTParser.onMisc`: on a `.I` line set the docid from the stripped
remainder and reset cats, textlines and sectionheader. -/
def smartOnMisc (line : String) (d : SmartData) : Trans SmartSt × SmartData :=
  if pyStartswith line ".I" then
    (Trans.next SmartSt.GotDocId,
      { d with docid := some (pyStrip ⟨line.data.drop 2⟩), textlines := [],
               cats := none, sectionheader := none })
  else (Trans.stay, d)

/-- `SMARTParser.onGotDocId`: only a line starting with `.C` transitions. -/
def smartOnGotDocId (line : String) (d : SmartData) : Trans SmartSt × SmartData :=
  if pyStartswith line ".C" then (Trans.next SmartSt.SawDotC, d)
  else (Trans.stay, d)

/-- `SMARTParser.onSawDotC`: parse the category line. -/
def smartOnSawDotC (line : String) (d : SmartData) : Trans SmartSt × SmartData :=
  (Trans.next SmartSt.SectionHeader, { d with cats := some (smartCats line.data) })

/-- `SMARTParser.onSectionHeader`: `sectionheader = line[1:2]`. -/
def smartOnSectionHeader (line : String) (d : SmartData) : Trans SmartSt × SmartData :=
  (Trans.next SmartSt.SectionText, { d with sectionheader := some (⟨(line.data.drop 1).take 1⟩ : String) })

/-- `SMARTParser.doCallBack`: when `textlines` is non-empty, invoke the
callback; faithful to the source, the callback's return value is discarded. -/
def smartDoCallBack (cb : Option String → Option (List String) → String → Bool)
    (d : SmartData) : SmartData :=
  if d.textlines.length ≠ 0 then
    let text := String.join d.textlines
    let _ := cb d.docid d.cats text
    { d with trace := d.trace ++ [(d.docid, d.cats, text)] }
  else d

/-- Python membership test `self.sectionheader in self.allowedsections`, where
`sectionheader` may still be `None`. -/
def headerMem (sh : Option String) (L : List String) : Bool :=
  match sh with
  | some s => L.contains s
  | none => false

/-- `SMARTParser.onSectionText`: a `.I` line flushes via `doCallBack` and
re-dispatches to `onMisc`; another `.`-line re-dispatches to
`onSectionHeader`; a filtered-out text line is dropped; otherwise the line is
buffered. -/
def smartOnSectionText (cb : Option String → Option (List String) → String → Bool)
    (allowed : Option (List String)) (line : String) (d : SmartData) :
    Trans SmartSt × SmartData :=
  if pyStartswith line "." then
    if pyStartswith line ".I" then
      smartOnMisc line (smartDoCallBack cb d)
    else smartOnSectionHeader line d
  else
    match allowed with
    | some L =>
        if headerMem d.sectionheader L then
          (Trans.stay, { d with textlines := d.textlines ++ [line] })
        else (Trans.stay, d)
    | none => (Trans.stay, { d with textlines := d.textlines ++ [line] })

/-- The state-function table `__introspect` builds for `SMARTParser`. -/
def smartDispatch (cb : Option String → Option (List String) → String → Bool)
    (allowed : Option (List String)) :
    SmartSt → String → SmartData → Trans SmartSt × SmartData
  | SmartSt.Misc => smartOnMisc
  | SmartSt.GotDocId => smartOnGotDocId
  | SmartSt.SawDotC => smartOnSawDotC
  | SmartSt.SectionHeader => smartOnSectionHeader
  | SmartSt.SectionText => smartOnSectionText cb allowed

/-- The initial record state of a `SMARTParser`. -/
def smartInit : SmartData :=
  { docid := none, cats := none, textlines := [], sectionheader := none, trace := [] }

/-- `SMARTParser(fin, callback, sections).parse()`: start state Misc;
`onFinish` flushes the in-progress record through `doCallBack`. -/
def smartParse (cb : Option String → Option (List String) → String → Bool)
    (allowed : Option (List String)) (lines : List String) :
    Except Unit (RunOut SmartSt SmartData) :=
  smParse (smartDispatch cb allowed) (fun _ d => smartDoCallBack cb d) lines
    SmartSt.Misc smartInit

/-! ### Concrete inputs and callbacks used by the claim checks -/

/-- A SMART callback that always returns the stop signal `False`. -/
def cbStop : Option String → Option (List String) → String → Bool :=
  fun _ _ _ => false

/-- A TREC callback that returns `True` (so never requests a stop). -/
def cbTrue : Option String → String → Bool :=
  fun _ _ => true

/-- A two-document SMART input stream. -/
def c1Lines : List String :=
  [".I 1\n", ".C\n", "x 1\n", ".W\n", "hello\n",
   ".I 2\n", ".C\n", "y 1\n", ".W\n", "world\n"]

/-- A TREC stream whose `<TEXT>` section is never closed. -/
def c10Lines : List String :=
  ["<DOCNO> D1 </DOCNO>\n", "<TEXT>\n", "hello\n"]

/-- A one-state instantiation of the engine whose only handler immediately
returns the stop signal `False`; its data is a flag. -/
def stopDispatch : Unit → String → Bool → Trans Unit × Bool :=
  fun _ _ b => (Trans.stop, b)

/-- A terminal hook that sets the flag, making an `onFinish` call observable. -/
def flagFinish : String → Bool → Bool :=
  fun _ _ => true

/-- A factory over strings holding the single object `"x"` (atom 1). -/
def afX : AtomFactory String :=
  (getitem (mkAtomFactory "t") "x").2

instance (af : AtomFactory α) : Decidable (Invariant af) :=
  inferInstanceAs (Decidable (af.obj_to_atom = enumAtoms af.atom_to_obj 1 ∧
    af.atom_to_obj.Nodup))

/-! ### Lemmas about the atom-factory bimap -/

theorem enumAtoms_concat (l : List α) (o : α) (k : Nat) :
    enumAtoms (l ++ [o]) k = enumAtoms l k ++ [(o, k + l.length)] := by
  induction l generalizing k with
  | nil => simp [enumAtoms]
  | cons a l ih =>
      have hn : k + 1 + l.length = k + (l.length + 1) := by omega
      show (a, k) :: enumAtoms (l ++ [o]) (k + 1) =
        ((a, k) :: enumAtoms l (k + 1)) ++ [(o, k + (a :: l).length)]
      rw [ih, List.cons_append, List.length_cons, hn]

theorem dictGet_enumAtoms_cons (a : α) (l : List α) (k : Nat) (o : α) :
    dictGet (enumAtoms (a :: l) k) o =
      if a = o then some k else dictGet (enumAtoms l (k + 1)) o := by
  by_cases h : a = o
  · simp [dictGet, enumAtoms, List.find?_cons_of_pos, h]
  · simp [dictGet, enumAtoms, List.find?_cons_of_neg, h]

theorem dictGet_enumAtoms_of_not_mem (l : List α) (k : Nat) (o : α) (h : o ∉ l) :
    dictGet (enumAtoms l k) o = none := by
  induction l generalizing k with
  | nil => simp [dictGet, enumAtoms]
  | cons a l ih =>
      rw [dictGet_enumAtoms_cons]
      simp only [List.mem_cons, not_or] at h
      rw [if_neg (fun e => h.1 e.symm)]
      exact ih (k + 1) h.2

theorem dictGet_enumAtoms_get (l : List α) (hl : l.Nodup) (k i : Nat)
    (h : i < l.length) :
    dictGet (enumAtoms l k) (l.get ⟨i, h⟩) = some (k + i) := by
  induction l generalizing k i with
  | nil => simp at h
  | cons a l ih =>
      rw [dictGet_enumAtoms_cons]
      rcases List.nodup_cons.mp hl with ⟨ha, hl2⟩
      cases i with
      | zero => simp
      | succ j =>
          have hj : j < l.length := by simpa using h
          have hne : a ≠ l.get ⟨j, hj⟩ := by
            intro e
            rw [e] at ha
            exact ha (List.get_mem l j hj)
          simp only [List.get_cons_succ]
          rw [if_neg hne]
          have := ih hl2 (k + 1) j hj
          rw [this]
          congr 1
          omega

theorem dictGet_enumAtoms_eq_some (l : List α) (k : Nat) (o : α) (a : Nat)
    (h : dictGet (enumAtoms l k) o = some a) :
    ∃ i, ∃ hi : i < l.length, l.get ⟨i, hi⟩ = o ∧ a = k + i := by
  induction l generalizing k with
  | nil => simp [dictGet, enumAtoms] at h
  | cons b l ih =>
      rw [dictGet_enumAtoms_cons] at h
      by_cases hb : b = o
      · rw [if_pos hb] at h
        injection h with h2
        exact ⟨0, by simp, by simpa using hb, by omega⟩
      · rw [if_neg hb] at h
        obtain ⟨i, hi, h1, h2⟩ := ih (k + 1) h
        refine ⟨i + 1, by simpa using hi, ?_, by omega⟩
        simpa using h1

theorem invariant_mkAtomFactory (n : String) : Invariant (mkAtomFactory (α := α) n) :=
  ⟨rfl, List.nodup_nil⟩

theorem dictGet_none_not_mem (af : AtomFactory α) (hI : Invariant af) (o : α)
    (h : dictGet af.obj_to_atom o = none) : o ∉ af.atom_to_obj := by
  intro hm
  obtain ⟨⟨i, hi⟩, e⟩ := List.mem_iff_get.mp hm
  have h2 := dictGet_enumAtoms_get af.atom_to_obj hI.2 1 i hi
  rw [e, ← hI.1, h] at h2
  exact Option.noConfusion h2

theorem getitem_found (af : AtomFactory α) (o : α) (a : Nat)
    (h : dictGet af.obj_to_atom o = some a) : getitem af o = (Except.ok a, af) := by
  simp [getitem, h]

theorem getitem_locked_missing (af : AtomFactory α) (o : α)
    (h : dictGet af.obj_to_atom o = none) (hl : af.locked = true) :
    getitem af o = (Except.error PyErr.keyError, af) := by
  simp [getitem, h, hl]

theorem getitem_insert (af : AtomFactory α) (o : α)
    (h : dictGet af.obj_to_atom o = none) (hl : af.locked = false) :
    getitem af o = (Except.ok (af.atom_to_obj.length + 1),
      { af with obj_to_atom := af.obj_to_atom ++ [(o, af.atom_to_obj.length + 1)],
                atom_to_obj := af.atom_to_obj ++ [o] }) := by
  simp [getitem, h, hl]

theorem invariant_getitem (af : AtomFactory α) (hI : Invariant af) (o : α) :
    Invariant (getitem af o).2 := by
  cases hd : dictGet af.obj_to_atom o with
  | some a => rw [getitem_found af o a hd]; exact hI
  | none =>
      cases hl : af.locked with
      | true => rw [getitem_locked_missing af o hd hl]; exact hI
      | false =>
          rw [getitem_insert af o hd hl]
          have hnm := dictGet_none_not_mem af hI o hd
          refine ⟨?_, ?_⟩
          · show af.obj_to_atom ++ [(o, af.atom_to_obj.length + 1)] =
              enumAtoms (af.atom_to_obj ++ [o]) 1
            rw [enumAtoms_concat, ← hI.1, Nat.add_comm 1 af.atom_to_obj.length]
          · show (af.atom_to_obj ++ [o]).Nodup
            simp [List.nodup_append, hI.2, hnm]

theorem invariant_lock (af : AtomFactory α) (hI : Invariant af) : Invariant (lock af) :=
  hI

theorem foldl_remove_filter (S : List α) (xs : List α) (g : AtomFactory α) :
    xs.foldl (fun g obj => if obj ∈ S then g else (getitem g obj).2) g =
      (xs.filter (fun o => decide (o ∉ S))).foldl (fun g obj => (getitem g obj).2) g := by
  induction xs generalizing g with
  | nil => rfl
  | cons x xs ih =>
      by_cases hx : x ∈ S <;> simp [List.filter_cons, hx, ih]

theorem insertAll_foldl_spec (xs : List α) (g : AtomFactory α) (hI : Invariant g)
    (hl : g.locked = false) (hnd : xs.Nodup) (hfresh : ∀ x ∈ xs, x ∉ g.atom_to_obj) :
    Invariant (xs.foldl (fun g obj => (getitem g obj).2) g) ∧
      (xs.foldl (fun g obj => (getitem g obj).2) g).atom_to_obj = g.atom_to_obj ++ xs ∧
      (xs.foldl (fun g obj => (getitem g obj).2) g).locked = false := by
  induction xs generalizing g with
  | nil => simpa using ⟨hI, hl⟩
  | cons x xs ih =>
      have hd : dictGet g.obj_to_atom x = none := by
        cases hdx : dictGet g.obj_to_atom x with
        | none => rfl
        | some a =>
            obtain ⟨i, hi, e, _⟩ := dictGet_enumAtoms_eq_some _ 1 x a (hI.1 ▸ hdx)
            exact absurd (e ▸ List.get_mem _ i hi) (hfresh x (by simp))
      have h2 := getitem_insert g x hd hl
      rcases List.nodup_cons.mp hnd with ⟨hx, hnd2⟩
      have hI1 : Invariant (getitem g x).2 := invariant_getitem g hI x
      have hl1 : (getitem g x).2.locked = false := by rw [h2]; exact hl
      have hfresh1 : ∀ y ∈ xs, y ∉ (getitem g x).2.atom_to_obj := by
        intro y hy
        rw [h2]
        simp only [List.mem_append, List.mem_singleton, not_or]
        exact ⟨hfresh y (by simp [hy]), fun e => hx (e ▸ hy)⟩
      obtain ⟨ha, hb, hc⟩ := ih (getitem g x).2 hI1 hl1 hnd2 hfresh1
      refine ⟨by simpa using ha, ?_, by simpa using hc⟩
      rw [List.foldl_cons, hb, h2]
      simp

theorem remove_spec (af : AtomFactory α) (S : List α) (hI : Invariant af) :
    Invariant (remove af S).1 ∧
      (remove af S).1.atom_to_obj = af.atom_to_obj.filter (fun o => decide (o ∉ S)) ∧
      (remove af S).1.locked = false := by
  have hq : (remove af S).1 =
      (af.atom_to_obj.filter (fun o => decide (o ∉ S))).foldl
        (fun g obj => (getitem g obj).2) (mkAtomFactory af.name) := by
    show af.atom_to_obj.foldl (fun g obj => if obj ∈ S then g else (getitem g obj).2)
        (mkAtomFactory af.name) = _
    exact foldl_remove_filter S af.atom_to_obj (mkAtomFactory af.name)
  have hnd : (af.atom_to_obj.filter (fun o => decide (o ∉ S))).Nodup :=
    hI.2.filter _
  obtain ⟨ha, hb, hc⟩ := insertAll_foldl_spec
    (af.atom_to_obj.filter (fun o => decide (o ∉ S))) (mkAtomFactory af.name)
    (invariant_mkAtomFactory af.name) rfl hnd (by intro x hx; simp [mkAtomFactory])
  rw [hq]
  exact ⟨ha, by simpa [mkAtomFactory] using hb, hc⟩

theorem enumAtoms_length (l : List α) (k : Nat) : (enumAtoms l k).length = l.length := by
  induction l generalizing k with
  | nil => rfl
  | cons a l ih => simp [enumAtoms, ih]

theorem dictGet_append_of_some (d1 d2 : List (α × Nat)) (o : α) (a : Nat)
    (h : dictGet d1 o = some a) : dictGet (d1 ++ d2) o = some a := by
  unfold dictGet at h ⊢
  cases hf : d1.find? (fun p => decide (p.1 = o)) with
  | none => rw [hf] at h; exact Option.noConfusion h
  | some p =>
      rw [List.find?_append, hf]
      rw [hf] at h
      simpa using h

theorem getitem_locked_eq (af : AtomFactory α) (o : α) :
    (getitem af o).2.locked = af.locked := by
  unfold getitem
  cases dictGet af.obj_to_atom o with
  | some a => rfl
  | none =>
      cases h : af.locked with
      | true => simp [h]
      | false => simp [h]

theorem foldl_getitem_locked (xs : List α) (g : AtomFactory α) :
    (xs.foldl (fun g obj => (getitem g obj).2) g).locked = g.locked := by
  induction xs generalizing g with
  | nil => rfl
  | cons x xs ih => rw [List.foldl_cons, ih, getitem_locked_eq]

theorem pyIndex_eq_none_iff (l : List α) (i : Int) :
    pyIndex l i = none ↔ ((l.length : Int) ≤ i ∨ i + l.length < 0) := by
  unfold pyIndex
  by_cases h1 : (0 : Int) ≤ i
  · rw [if_pos h1, List.getElem?_eq_none_iff]
    omega
  · rw [if_neg h1]
    by_cases h2 : (0 : Int) ≤ i + l.length
    · rw [if_pos h2, List.getElem?_eq_none_iff]
      omega
    · rw [if_neg h2]
      constructor
      · intro _
        omega
      · intro _
        rfl

/-! ### Claim C4 -/

/-- C4 as stated is false on the code: `get_object(0)` on a factory holding
one object `"x"` does not fail with an index error — Python's negative list
indexing wraps `atom_to_obj[-1]` around to the last object, so it returns
`"x"`, although `0 ≤ 0`. -/
theorem C4_counterexample :
    (0 : Int) ≤ 0 ∧ size afX = 1 ∧ get_object afX 0 = Except.ok "x" :=
  ⟨by decide, rfl, rfl⟩

/-- C4 (amended): `get_object(a)` fails with an index error iff `a > size` or
`a ≤ -size` (for `-size < a ≤ 0` Python's negative indexing silently wraps
around instead of failing); for every `1 ≤ a ≤ size` it returns, without
error, the object to which atom `a` was assigned. -/
theorem C4_get_object_range (af : AtomFactory α) (a : Int) :
    (get_object af a = Except.error PyErr.indexError ↔
      ((size af : Int) < a ∨ a ≤ -(size af : Int))) ∧
    (Invariant af → 1 ≤ a → a ≤ (size af : Int) →
      ∃ o, get_object af a = Except.ok o ∧
        dictGet af.obj_to_atom o = some a.toNat) := by
  constructor
  · unfold get_object
    cases hp : pyIndex af.atom_to_obj (a - 1) with
    | none =>
        rw [pyIndex_eq_none_iff] at hp
        simp only [size]
        constructor
        · intro _
          omega
        · intro _
          trivial
    | some o =>
        have hp2 : ¬ ((af.atom_to_obj.length : Int) ≤ a - 1 ∨
            a - 1 + af.atom_to_obj.length < 0) := by
          rw [← pyIndex_eq_none_iff, hp]
          simp
        simp only [size]
        constructor
        · intro h
          exact Except.noConfusion h
        · intro hc
          exact absurd (by omega) hp2
  · intro hI h1 h2
    have hlt : (a - 1).toNat < af.atom_to_obj.length := by
      simp only [size] at h2
      omega
    have hp : pyIndex af.atom_to_obj (a - 1) =
        some (af.atom_to_obj.get ⟨(a - 1).toNat, hlt⟩) := by
      unfold pyIndex
      rw [if_pos (by omega), List.getElem?_eq_getElem hlt]
      rfl
    refine ⟨af.atom_to_obj.get ⟨(a - 1).toNat, hlt⟩, ?_, ?_⟩
    · unfold get_object
      rw [hp]
    · have h3 := dictGet_enumAtoms_get af.atom_to_obj hI.2 1 (a - 1).toNat hlt
      rw [← hI.1] at h3
      rw [h3]
      congr 1
      omega

/-- Witness for the amended C4 at the concrete factory `afX` and atom 1. -/
theorem C4_get_object_range_witness :
    Invariant afX ∧ (1 : Int) ≤ 1 ∧ (1 : Int) ≤ (size afX : Int) ∧
      (∃ o, get_object afX 1 = Except.ok o ∧
        dictGet afX.obj_to_atom o = some (1 : Int).toNat) :=
  ⟨by decide, by decide, by decide,
    (C4_get_object_range afX 1).2 (by decide) (by decide) (by decide)⟩

/-! ### Claim C5 -/

/-- C5 as stated is false on the code: converting atom 1 (object `"x"`) into
a fresh, UNLOCKED factory does not assign a fresh atom — `convertAtom` raises
`IllegalOperation` whenever the object is absent from the target, regardless
of the lock state. -/
theorem C5_counterexample :
    (mkAtomFactory (α := String) "n").locked = false ∧
      convertAtom afX (mkAtomFactory "n") 1 =
        (Except.error PyErr.illegalOperation, mkAtomFactory "n") :=
  ⟨rfl, rfl⟩

/-- C5 (amended): `convertAtom(oldAF, newAF, atom)` resolves the atom to its
object in `oldAF`; it fails with `IllegalOperation` whenever that object is
absent from `newAF` — locked or not; it never inserts.  When the object is
present, its existing atom in `newAF` is returned and `newAF` is unchanged. -/
theorem C5_convertAtom (oldAF newAF : AtomFactory α) (a : Int) (o : α)
    (h : get_object oldAF a = Except.ok o) :
    (contains newAF o = false →
      convertAtom oldAF newAF a = (Except.error PyErr.illegalOperation, newAF)) ∧
    (∀ n, dictGet newAF.obj_to_atom o = some n →
      convertAtom oldAF newAF a = (Except.ok n, newAF)) := by
  constructor
  · intro hc
    unfold convertAtom
    rw [h]
    simp [hc]
  · intro n hn
    have hc : contains newAF o = true := by
      unfold contains
      rw [hn]
      rfl
    unfold convertAtom
    rw [h]
    simp only [hc, if_true]
    exact getitem_found newAF o n hn

/-- Witness for the amended C5: both branches at concrete factories. -/
theorem C5_convertAtom_witness :
    convertAtom afX (mkAtomFactory "n") 1 =
        (Except.error PyErr.illegalOperation, mkAtomFactory "n") ∧
      convertAtom afX afX 1 = (Except.ok 1, afX) :=
  ⟨(C5_convertAtom afX (mkAtomFactory "n") 1 "x" rfl).1 rfl,
   (C5_convertAtom afX afX 1 "x" rfl).2 1 rfl⟩

/-! ### Claim C6 -/

/-- C6: every operation preserves the bimap invariant (`__getitem__`, `lock`,
`remove`'s new factory, `convertAtom`'s target), and the invariant gives the
claimed facts: `forward[backward[a-1]] == a` for every atom in range, equal
sizes of the two maps, distinct objects receive distinct atoms, every assigned
atom lies in `1..size` (contiguous from 1), and `__getitem__` never reuses or
renumbers an existing atom — old entries survive unchanged and the object list
only grows by appending. -/
theorem C6_invariant_preserved (af : AtomFactory α) (hI : Invariant af) (o : α)
    (S : List α) (oldAF : AtomFactory α) (a0 : Int) :
    Invariant (getitem af o).2 ∧
    Invariant (lock af) ∧
    Invariant (remove af S).1 ∧
    Invariant (convertAtom oldAF af a0).2 ∧
    af.obj_to_atom.length = af.atom_to_obj.length ∧
    (∀ i (h : i < af.atom_to_obj.length),
      dictGet af.obj_to_atom (af.atom_to_obj.get ⟨i, h⟩) = some (i + 1)) ∧
    (∀ o1 o2 a1 a2, dictGet af.obj_to_atom o1 = some a1 →
      dictGet af.obj_to_atom o2 = some a2 → o1 ≠ o2 → a1 ≠ a2) ∧
    (∀ o1 a1, dictGet af.obj_to_atom o1 = some a1 → 1 ≤ a1 ∧ a1 ≤ size af) ∧
    (∀ o1 a1, dictGet af.obj_to_atom o1 = some a1 →
      dictGet (getitem af o).2.obj_to_atom o1 = some a1) ∧
    af.atom_to_obj <+: (getitem af o).2.atom_to_obj := by
  have hgi : Invariant (getitem af o).2 := invariant_getitem af hI o
  have hstable : ∀ o1 a1, dictGet af.obj_to_atom o1 = some a1 →
      dictGet (getitem af o).2.obj_to_atom o1 = some a1 := by
    intro o1 a1 h1
    cases hd : dictGet af.obj_to_atom o with
    | some a => rw [getitem_found af o a hd]; exact h1
    | none =>
        cases hl : af.locked with
        | true => rw [getitem_locked_missing af o hd hl]; exact h1
        | false =>
            rw [getitem_insert af o hd hl]
            exact dictGet_append_of_some af.obj_to_atom _ o1 a1 h1
  have hpre : af.atom_to_obj <+: (getitem af o).2.atom_to_obj := by
    cases hd : dictGet af.obj_to_atom o with
    | some a => rw [getitem_found af o a hd]
    | none =>
        cases hl : af.locked with
        | true => rw [getitem_locked_missing af o hd hl]
        | false =>
            rw [getitem_insert af o hd hl]
            exact List.prefix_append af.atom_to_obj [o]
  have hconv : Invariant (convertAtom oldAF af a0).2 := by
    unfold convertAtom
    cases get_object oldAF a0 with
    | error e => exact hI
    | ok o2 =>
        by_cases hc : contains af o2 = true
        · simp only [hc, if_true]
          exact invariant_getitem af hI o2
        · simp only [hc, if_false]
          exact hI
  refine ⟨hgi, invariant_lock af hI, (remove_spec af S hI).1, hconv, ?_, ?_, ?_, ?_,
    hstable, hpre⟩
  · rw [hI.1, enumAtoms_length]
  · intro i h
    have h3 := dictGet_enumAtoms_get af.atom_to_obj hI.2 1 i h
    rw [← hI.1] at h3
    rw [h3, Nat.add_comm]
  · intro o1 o2 a1 a2 h1 h2 hne
    obtain ⟨i, hi, e1, e2⟩ := dictGet_enumAtoms_eq_some af.atom_to_obj 1 o1 a1 (hI.1 ▸ h1)
    obtain ⟨j, hj, e3, e4⟩ := dictGet_enumAtoms_eq_some af.atom_to_obj 1 o2 a2 (hI.1 ▸ h2)
    intro haa
    apply hne
    have hij : i = j := by omega
    subst hij
    rw [← e1, ← e3]
  · intro o1 a1 h1
    obtain ⟨i, hi, e1, e2⟩ := dictGet_enumAtoms_eq_some af.atom_to_obj 1 o1 a1 (hI.1 ▸ h1)
    unfold size
    omega

/-- Witness for C6 at the concrete one-object factory `afX`. -/
theorem C6_invariant_preserved_witness :
    Invariant afX ∧ Invariant (getitem afX "y").2 :=
  ⟨by decide, (C6_invariant_preserved afX (by decide) "y" ["x"] afX 1).1⟩

/-! ### Claim C7 -/

/-- C7: `remove(S)` leaves the receiver untouched and returns a fresh,
unlocked factory equal to inserting the retained objects, in their original
first-seen order, into a new empty factory (carrying the receiver's name, as
in the source); under the invariant the retained objects are exactly
`atom_to_obj` with the members of `S` filtered out, and the invariant holds of
the result, so its atoms are again dense from 1. -/
theorem C7_remove (af : AtomFactory α) (S : List α) :
    (remove af S).2 = af ∧
    (remove af S).1 = insertAll af.name
      (af.atom_to_obj.filter (fun o => decide (o ∉ S))) ∧
    (remove af S).1.locked = false ∧
    (Invariant af →
      Invariant (remove af S).1 ∧
      (remove af S).1.atom_to_obj =
        af.atom_to_obj.filter (fun o => decide (o ∉ S))) := by
  have hq : (remove af S).1 = insertAll af.name
      (af.atom_to_obj.filter (fun o => decide (o ∉ S))) := by
    show af.atom_to_obj.foldl (fun g obj => if obj ∈ S then g else (getitem g obj).2)
        (mkAtomFactory af.name) = _
    exact foldl_remove_filter S af.atom_to_obj (mkAtomFactory af.name)
  refine ⟨rfl, hq, ?_, fun hI => ⟨(remove_spec af S hI).1, (remove_spec af S hI).2.1⟩⟩
  rw [hq]
  show ((af.atom_to_obj.filter (fun o => decide (o ∉ S))).foldl
      (fun g obj => (getitem g obj).2) (mkAtomFactory af.name)).locked = false
  rw [foldl_getitem_locked]
  rfl

/-- Witness for C7 on a factory holding `[a, x, b]`, removing `{x}`. -/
theorem C7_remove_witness :
    (remove (insertAll "t" ["a", "x", "b"]) ["x"]).2 = insertAll "t" ["a", "x", "b"] ∧
      (remove (insertAll "t" ["a", "x", "b"]) ["x"]).1.atom_to_obj = ["a", "b"] := by
  have h := C7_remove (insertAll "t" ["a", "x", "b"]) ["x"]
  refine ⟨h.1, ?_⟩
  rw [(h.2.2.2 (by decide)).2]
  decide

/-! ### Claim C8 -/

/-- C8: on a locked factory, looking up an unseen object fails with the
re-raised `KeyError` (which is a `LookupError` in Python) and leaves the
factory completely unchanged — no atom assigned, same size; looking up a
present object still returns its original atom; `lock` is idempotent. -/
theorem C8_lock (af : AtomFactory α) (o : α) :
    (contains af o = false →
      getitem (lock af) o = (Except.error PyErr.keyError, lock af)) ∧
    (∀ a, dictGet af.obj_to_atom o = some a →
      getitem (lock af) o = (Except.ok a, lock af)) ∧
    lock (lock af) = lock af ∧
    size (lock af) = size af := by
  refine ⟨?_, ?_, rfl, rfl⟩
  · intro hc
    have hd : dictGet af.obj_to_atom o = none := by
      cases hx : dictGet af.obj_to_atom o with
      | none => rfl
      | some a =>
          unfold contains at hc
          rw [hx] at hc
          exact absurd hc (by simp)
    exact getitem_locked_missing (lock af) o hd rfl
  · intro a ha
    exact getitem_found (lock af) o a ha

/-- Witness for C8 at the locked one-object factory. -/
theorem C8_lock_witness :
    getitem (lock afX) "y" = (Except.error PyErr.keyError, lock afX) ∧
      getitem (lock afX) "x" = (Except.ok 1, lock afX) :=
  ⟨(C8_lock afX "y").1 rfl, (C8_lock afX "x").2.1 1 rfl⟩

/-! ### Claim C1 -/

/-- C1 states the documented contract of both parsers, but the code breaks it
for `SMARTParser`: `doCallBack` discards the callback's return value, so even
a callback that always returns the stop signal `False` does not halt the
engine — on the two-document stream `c1Lines` the callback is invoked again
for the second record (the trace has two entries), although it returned
`False` on the first. -/
theorem C1_smart_ignores_stop :
    (∀ d c t, cbStop d c t = false) ∧
      (smartParse cbStop none c1Lines).map (fun r => r.data.trace) =
        Except.ok [(some "1", some ["x"], "hello\n"),
                   (some "2", some ["y"], "world\n")] :=
  ⟨fun _ _ _ => rfl, rfl⟩

/-! ### Claim C2 -/

/-- C2 is false as stated: with a one-state engine whose handler immediately
returns the stop signal on the single line "x", `parse()` does stop, but the
terminal hook IS invoked — `flagFinish` sets the data flag, and the final
data is `true`. -/
theorem C2_counterexample :
    smParse stopDispatch flagFinish ["x"] () false =
      Except.ok ⟨(), true, true, some "x"⟩ :=
  rfl

/-- C2 (amended): when a state handler returns the stop signal `False`,
`parse()` stops processing — none of the remaining lines is dispatched — but
it then invokes the terminal hook `onFinish` with the line on which the stop
occurred, before returning. -/
theorem C2_stop_behavior {ν σ : Type} (dispatch : ν → String → σ → Trans ν × σ)
    (onFinish : String → σ → σ) (l : String) (ls : List String) (st : ν) (d d1 : σ)
    (h : dispatch st l d = (Trans.stop, d1)) :
    smParse dispatch onFinish (l :: ls) st d =
      Except.ok ⟨st, onFinish l d1, true, some l⟩ := by
  have hr : smLoop dispatch st d (l :: ls) = ⟨st, d1, true, some l⟩ := by
    unfold smLoop
    rw [h]
  unfold smParse
  rw [hr]

/-- Witness for the amended C2: the stop on line "a" leaves line "b"
unprocessed, and the finish hook runs on "a". -/
theorem C2_stop_behavior_witness :
    smParse stopDispatch flagFinish ["a", "b"] () false =
      Except.ok ⟨(), true, true, some "a"⟩ :=
  C2_stop_behavior stopDispatch flagFinish "a" ["b"] () false false rfl

/-! ### Claim C3 -/

/-- C3 describes the intended behaviour, but on an empty source the code
raises: the `for` loop never binds `line`, so the trailing
`self.onFinish(line)` raises `UnboundLocalError` (modelled `Except.error ()`)
instead of invoking the hook with an empty value and returning normally.
Both concrete parsers, and the engine for every dispatch/hook/start/state,
error on the empty stream. -/
theorem C3_empty_source_raises :
    trecParse cbTrue [] = Except.error () ∧
      smartParse cbStop none [] = Except.error () ∧
      (∀ (ν σ : Type) (dispatch : ν → String → σ → Trans ν × σ)
        (onFinish : String → σ → σ) (start : ν) (d0 : σ),
        smParse dispatch onFinish [] start d0 = Except.error ()) :=
  ⟨rfl, rfl, fun _ _ _ _ _ _ => rfl⟩

/-! ### Claim C9 -/

/-- C9: in state GotDocId, any line not starting with ".C" — in particular
a line starting with ".I" — is silently ignored: the handler returns `None`
(stay) and the record state is unchanged, so such a line never starts a new
record. -/
theorem C9_gotdocid_ignores (cb : Option String → Option (List String) → String → Bool)
    (allowed : Option (List String)) (line : String) (d : SmartData)
    (h : pyStartswith line ".C" = false) :
    smartDispatch cb allowed SmartSt.GotDocId line d = (Trans.stay, d) := by
  show smartOnGotDocId line d = (Trans.stay, d)
  unfold smartOnGotDocId
  simp [h]

/-- Witness for C9 at a ".I" line in state GotDocId. -/
theorem C9_gotdocid_ignores_witness :
    smartDispatch cbStop none SmartSt.GotDocId ".I 7\n" smartInit =
      (Trans.stay, smartInit) :=
  C9_gotdocid_ignores cbStop none ".I 7\n" smartInit rfl

/-! ### Claim C10 -/

/-- C10: `TrecParser` inherits the no-op `onFinish`, so after `parse()` the
record data is exactly the loop's data — nothing is flushed at stream end —
and on the concrete stream `c10Lines`, which ends inside an unclosed `<TEXT>`
section, the accumulated docid "D1" and text line are discarded with no
callback invocation (empty trace). -/
theorem C10_trec_truncated_discarded :
    (∀ (cb : Option String → String → Bool) (lines : List String)
      (r : RunOut TrecSt TrecData), trecParse cb lines = Except.ok r →
        r.data = (smLoop (trecDispatch cb) TrecSt.Misc trecInit lines).data) ∧
    trecParse cbTrue c10Lines =
      Except.ok ⟨TrecSt.Text, ⟨some "D1", ["hello\n"], []⟩, false, some "hello\n"⟩ := by
  constructor
  · intro cb lines r h
    simp only [trecParse, smParse] at h
    cases hL : (smLoop (trecDispatch cb) TrecSt.Misc trecInit lines).lastLine with
    | none =>
        rw [hL] at h
        exact Except.noConfusion h
    | some l =>
        rw [hL] at h
        injection h with h2
        rw [← h2]
  · rfl

/-- Witness for C10: the generic no-flush fact applied at the truncated
stream, with the run hypothesis discharged by evaluation. -/
theorem C10_trec_truncated_discarded_witness :
    (⟨TrecSt.Text, ⟨some "D1", ["hello\n"], []⟩, false, some "hello\n"⟩ :
        RunOut TrecSt TrecData).data =
      (smLoop (trecDispatch cbTrue) TrecSt.Misc trecInit c10Lines).data :=
  C10_trec_truncated_discarded.1 cbTrue c10Lines
    ⟨TrecSt.Text, ⟨some "D1", ["hello\n"], []⟩, false, some "hello\n"⟩ rfl

end Mekano
